import Mathlib

/-!
Verification of the EVICT contig classification and orientation scripts.

Shallow embedding of:
* `bin/reverse_complement_contigs.py` — strand-orientation normalizer
* `bin/genotype_prediction.py` — genotype suggestion classifier and CLI
* `bin/blast_summary.py` — grouped aggregation of BLAST hits

Python floats are modelled as rationals (ℚ); machine behavior relevant to the
claims does not involve float rounding.  Fallible Python code is modelled with
`Option`/`Except`.
-/

namespace EVICT

/-! ## Python numeric-literal parsing

`int(s)` (used by `get_reverse_contigs`) and `pd.to_numeric(..., errors="coerce")`
(used by the classifier and summarizer) are modelled by explicit parsers.
Digit-group underscores of Python literals are not modelled; no claim depends
on them. -/

/-- Digits of a decimal string, `none` if any char is not a digit or empty. -/
def digitsVal : List Char → Option Nat
  | [] => none
  | cs => cs.foldl (fun acc c =>
      match acc with
      | none => none
      | some n => if c.isDigit then some (n * 10 + (c.toNat - 48)) else none)
      (some 0)

/-- Python `int(s)`: optional surrounding whitespace, optional sign, digits. -/
def parseIntPy (s : String) : Option Int :=
  let cs := (s.toList.dropWhile Char.isWhitespace).reverse
    |>.dropWhile Char.isWhitespace |>.reverse
  match cs with
  | '-' :: rest => (digitsVal rest).map (fun n => -(n : Int))
  | '+' :: rest => (digitsVal rest).map (fun n => (n : Int))
  | rest => (digitsVal rest).map (fun n => (n : Int))

/-- Fractional part `ds` read as `0.ds`. -/
def fracVal (cs : List Char) : Option ℚ :=
  (digitsVal cs).map (fun n => (n : ℚ) / ((10 : ℚ) ^ cs.length))

/-- Unsigned decimal `intpart[.fracpart]`; at least one digit overall. -/
def parseUnsignedDec (cs : List Char) : Option ℚ :=
  match cs.splitOn '.' with
  | [ip] => (digitsVal ip).map (fun n => (n : ℚ))
  | [ip, fp] =>
      match ip, fp with
      | [], [] => none
      | [], fp => fracVal fp
      | ip, [] => (digitsVal ip).map (fun n => (n : ℚ))
      | ip, fp => do
          let i ← digitsVal ip
          let f ← fracVal fp
          pure ((i : ℚ) + f)
  | _ => none

/-- Decimal with optional exponent part (`e`/`E`, optional sign). -/
def parseSciDec (cs : List Char) : Option ℚ :=
  match cs.splitOn 'e', cs.splitOn 'E' with
  | [m, ex], _ | [_], [m, ex] => do
      let mv ← parseUnsignedDec m
      let ev ← match ex with
        | '-' :: ds => (digitsVal ds).map (fun n => -(n : Int))
        | '+' :: ds => (digitsVal ds).map (fun n => (n : Int))
        | ds => (digitsVal ds).map (fun n => (n : Int))
      pure (mv * (10 : ℚ) ^ ev)
  | [m], [_] => parseUnsignedDec m
  | _, _ => none

/-- Model of `pd.to_numeric(s, errors="coerce")` on a string cell: `none` models `NaN`. -/
def parseDecimal (s : String) : Option ℚ :=
  let cs := (s.toList.dropWhile Char.isWhitespace).reverse
    |>.dropWhile Char.isWhitespace |>.reverse
  match cs with
  | '-' :: rest => (parseSciDec rest).map (fun q => -q)
  | '+' :: rest => parseSciDec rest
  | rest => parseSciDec rest

/-! ## `reverse_complement_contigs.py` -/

/-- The translation table `str.maketrans("ACGTacgtNn", "TGCAtgcaNn")`:
complement a single nucleotide character, anything unmapped passes through. -/
def complChar (c : Char) : Char :=
  if c = 'A' then 'T' else if c = 'C' then 'G'
  else if c = 'G' then 'C' else if c = 'T' then 'A'
  else if c = 'a' then 't' else if c = 'c' then 'g'
  else if c = 'g' then 'c' else if c = 't' then 'a'
  else if c = 'N' then 'N' else if c = 'n' then 'n' else c

/-- Model of `reverse_complement(seq)`: `seq.translate(comp)[::-1]`. -/
def reverse_complement (s : String) : String :=
  String.mk ((s.toList.map complChar).reverse)

/-- One row of the comma-delimited BLAST file as `csv.DictReader` hands it to
`get_reverse_contigs`: the fields it reads, still raw strings. -/
structure RawHit where
  qseqid : String
  sstart : String
  send : String
  deriving DecidableEq, Repr

/-- Does `get_reverse_contigs` add this row's query id to the set?
(`int` both coordinates — on failure skip the row — then test `sstart > send`.) -/
def rowIsReverse (r : RawHit) : Bool :=
  match parseIntPy r.sstart, parseIntPy r.send with
  | some a, some b => a > b
  | _, _ => false

/-- Model of `get_reverse_contigs(blast_file)`: the set of query ids having a
reverse-oriented hit row. -/
def get_reverse_contigs (rows : List RawHit) : Finset String :=
  rows.foldl (fun s r => if rowIsReverse r then insert r.qseqid s else s) ∅

/-- Worker for Python `str.split()`: `acc` holds the current token reversed. -/
def splitWsGo (acc : List Char) (cs : List Char) : List (List Char) :=
  match cs with
  | [] => if acc.isEmpty then [] else [acc.reverse]
  | c :: rest =>
      if c.isWhitespace then
        if acc.isEmpty then splitWsGo [] rest
        else acc.reverse :: splitWsGo [] rest
      else splitWsGo (c :: acc) rest

/-- Python `str.split()` with no argument, on the character level: maximal runs
of non-whitespace characters (empty tokens never occur). -/
def splitWs (cs : List Char) : List (List Char) := splitWsGo [] cs

/-- Python `str.strip()`: whitespace removed from both ends. -/
def pyStrip (s : String) : String :=
  String.mk (((s.toList.dropWhile Char.isWhitespace).reverse.dropWhile
    Char.isWhitespace).reverse)

/-- Python `line.startswith(">")`: first character is `>`. -/
def startsWithGT (line : String) : Bool :=
  match line.toList with
  | c :: _ => c = '>'
  | [] => false

/-- Model of `header.split()[0][1:]`: the FASTA identifier, everything after `>` up to
the first whitespace.  (On a header from the stream the token list is nonempty
since the line starts with `>`; `headD` stands in for Python's `[0]`.) -/
def fasta_id (h : String) : String :=
  String.mk (((splitWs h.toList).headD []).drop 1)

/-- Worker for the 80-column re-wrap: `acc` holds the current output line
reversed, `k` its length. -/
def chunksGo (acc : List Char) (k : Nat) (cs : List Char) : List String :=
  match cs with
  | [] => if acc.isEmpty then [] else [String.mk acc.reverse]
  | c :: rest =>
      if k + 1 == 80 then String.mk (c :: acc).reverse :: chunksGo [] 0 rest
      else chunksGo (c :: acc) (k + 1) rest

/-- Model of `for i in range(0, len(seq), 80): out.write(seq[i:i+80] + "\n")`:
the sequence re-wrapped into 80-character output lines. -/
def chunks80 (cs : List Char) : List String := chunksGo [] 0 cs

/-- The inner `write_record(out, header, seq_lines)` of `process_fasta`:
the output lines it writes (none when no header has been seen). -/
def write_record (revSet : Finset String) (header : Option String)
    (seqLines : List String) : List String :=
  match header with
  | none => []
  | some h =>
      if h = "" then []
      else
        let seq := String.join seqLines
        let fid := fasta_id h
        if fid ∈ revSet then
          (">" ++ fid ++ "_reverse_complement") ::
            chunks80 (reverse_complement seq).toList
        else
          h :: chunks80 seq.toList

/-- The line loop of `process_fasta`, carrying the current header and the
accumulated sequence lines; flushes the pending record at end of input. -/
def processLines (revSet : Finset String) (lines : List String)
    (header : Option String) (seqAcc : List String) : List String :=
  match lines with
  | [] => write_record revSet header seqAcc
  | line :: rest =>
      if startsWithGT line then
        write_record revSet header seqAcc ++
          processLines revSet rest (some line) []
      else if line ≠ "" then
        processLines revSet rest header (seqAcc ++ [pyStrip line])
      else
        processLines revSet rest header seqAcc

/-- Model of `process_fasta(fasta_in, fasta_out, reverse_set)`: input given as the list
of input lines (without trailing newlines), result is the list of output
lines. -/
def process_fasta (lines : List String) (revSet : Finset String) : List String :=
  processLines revSet lines none []

/-- Specification-side view of the same stream: the (header, sequence-lines)
records of a FASTA input, in input order, the trailing record included.
Generalized over the loop state for the refinement proof. -/
def recordsAux (lines : List String) (header : Option String)
    (seqAcc : List String) : List (String × List String) :=
  match lines with
  | [] => match header with
          | none => []
          | some h => [(h, seqAcc)]
  | line :: rest =>
      if startsWithGT line then
        (match header with | none => [] | some h => [(h, seqAcc)]) ++
          recordsAux rest (some line) []
      else if line ≠ "" then
        recordsAux rest header (seqAcc ++ [pyStrip line])
      else
        recordsAux rest header seqAcc

/-- The records of a FASTA input, per the spec's header/sequence state machine. -/
def recordsOf (lines : List String) : List (String × List String) :=
  recordsAux lines none []

/-! ## `genotype_prediction.py` -/

/-- Python `s.split(sep)` for a nonempty separator, on the character level.
The `Nat` argument counts separator characters still to be skipped after a
match (so matches never overlap, as in Python). -/
def splitGo (sep : List Char) : List Char → Nat → List (List Char)
  | [], _ => [[]]
  | _ :: rest, Nat.succ k => splitGo sep rest k
  | c :: rest, 0 =>
      if sep.isPrefixOf (c :: rest) then
        [] :: splitGo sep rest (sep.length - 1)
      else
        match splitGo sep rest 0 with
        | [] => [[c]]
        | t :: ts => (c :: t) :: ts

/-- Python `s.split(sep)` (empty separator is a `ValueError` in Python and
never occurs in the source; it is mapped to the identity split here). -/
def pySplit (s sep : String) : List String :=
  if sep.toList.isEmpty then [s]
  else (splitGo sep.toList s.toList 0).map String.mk

/-- One row of the classifier's BLAST table, the columns
`genotype_prediction.main` uses, numeric columns already typed by
`pd.read_csv`. -/
structure Hit where
  qseqid : String
  qlen : ℚ
  pident : ℚ
  bitscore : ℚ
  scomname : String
  deriving DecidableEq, Repr, Inhabited

/-- The sentinel `suggest_genotype` emits when the criteria fail or its body
raises. -/
def manualSentinel : String := "Var god bedöm manuellt."

/-- The sentinel `main` emits when no contig survives the quality filter. -/
def noContigSentinel : String := "Ingen giltig contig (för kort/låg täckning)"

/-- The threshold arguments of `suggest_genotype`. -/
structure SuggestParams where
  minRows : ℤ
  minIdentity : ℚ
  minBitscore : ℚ
  deriving DecidableEq, Repr

/-- Model of `df.loc[df[col].idxmax()]`: the first row attaining the maximum of `f`
(`Series.idxmax` returns the first occurrence of the maximum). -/
def argmaxBy (f : Hit → ℚ) (rows : List Hit) : Option Hit :=
  rows.foldl (fun acc r =>
    match acc with
    | none => some r
    | some b => if f r > f b then some r else acc) none

/-- Model of `argmaxBy` with a default for the (never consulted) empty case. -/
def argmaxByD (f : Hit → ℚ) (rows : List Hit) : Hit :=
  (argmaxBy f rows).getD default

/-- Model of `df[col].max()` (0 for the never-consulted empty case). -/
def maxValD (f : Hit → ℚ) (rows : List Hit) : ℚ :=
  match rows with
  | [] => 0
  | r :: rs => rs.foldl (fun a x => max a (f x)) (f r)

/-- Lexicographic order on character lists by code point — Python's string
order, which pandas sorts group keys by. -/
def charListLe : List Char → List Char → Bool
  | [], _ => true
  | _ :: _, [] => false
  | a :: as, b :: bs =>
      if a.toNat < b.toNat then true
      else if b.toNat < a.toNat then false
      else charListLe as bs

/-- Python `a <= b` on strings. -/
def strLe (a b : String) : Bool := charListLe a.toList b.toList

/-- Insertion step of a stable string sort. -/
def insertStr (x : String) : List String → List String
  | [] => [x]
  | y :: ys => if strLe x y then x :: y :: ys else y :: insertStr x ys

/-- Ascending sort of strings (the order `groupby` lists its group keys in). -/
def sortStrs (l : List String) : List String := l.foldr insertStr []

/-- Insertion step of a stable rational sort. -/
def insertQ (x : ℚ) : List ℚ → List ℚ
  | [] => [x]
  | y :: ys => if x ≤ y then x :: y :: ys else y :: insertQ x ys

/-- Ascending sort of rationals. -/
def sortQ (l : List ℚ) : List ℚ := l.foldr insertQ []

/-- Model of `Series.median()`: middle of the sorted values, the mean of the two
middle values for an even count (0 for the never-consulted empty case). -/
def median (xs : List ℚ) : ℚ :=
  let s := sortQ xs
  let n := s.length
  if n = 0 then 0
  else if n % 2 = 1 then s.getD (n / 2) 0
  else (s.getD (n / 2 - 1) 0 + s.getD (n / 2) 0) / 2

/-- The group keys of `df.groupby('scomname')`: the distinct labels in the
sorted order pandas indexes the per-group series by. -/
def sortedLabels (rows : List Hit) : List String :=
  sortStrs (rows.map (·.scomname)).dedup

/-- Model of `Series.idxmax` over a per-label series: the first label (in index order)
attaining the maximum of `f` (`""` for the never-consulted empty case). -/
def argmaxLabel (f : String → ℚ) : List String → String
  | [] => ""
  | l :: ls => ls.foldl (fun best x => if f x > f best then x else best) l

/-- Model of `df.groupby('scomname')['pident'].median()` at one label. -/
def medianPidentOf (rows : List Hit) (lab : String) : ℚ :=
  median ((rows.filter (fun r => r.scomname = lab)).map (·.pident))

/-- Model of `df.groupby('scomname')['bitscore'].median()` at one label. -/
def medianBitscoreOf (rows : List Hit) (lab : String) : ℚ :=
  median ((rows.filter (fun r => r.scomname = lab)).map (·.bitscore))

/-- Model of `highest_median_pident`: label of the maximal per-label median identity. -/
def labelMedPident (rows : List Hit) : String :=
  argmaxLabel (medianPidentOf rows) (sortedLabels rows)

/-- Model of `highest_median_bitscore`: label of the maximal per-label median bit
score. -/
def labelMedBitscore (rows : List Hit) : String :=
  argmaxLabel (medianBitscoreOf rows) (sortedLabels rows)

/-- Model of `max_pident = df.loc[df['pident'].idxmax()]`. -/
def topPidentRow (rows : List Hit) : Hit := argmaxByD (·.pident) rows

/-- Model of `max_bitscore = df.loc[df['bitscore'].idxmax()]`. -/
def topBitscoreRow (rows : List Hit) : Hit := argmaxByD (·.bitscore) rows

/-- Model of `species_counts.get(top_species, 0)`: hits carrying the top label. -/
def topCount (rows : List Hit) : ℕ :=
  rows.countP (fun r => r.scomname == (topPidentRow rows).scomname)

/-- The six-way conjunction of the `if` in `suggest_genotype`, as the source
writes it (the two median conditions compared against `max_pident`'s and
`max_bitscore`'s labels respectively). -/
def codeConds (rows : List Hit) (p : SuggestParams) : Prop :=
  (topPidentRow rows).scomname = (topBitscoreRow rows).scomname ∧
  p.minRows ≤ (topCount rows : ℤ) ∧
  p.minIdentity ≤ maxValD (·.pident) rows ∧
  p.minBitscore ≤ maxValD (·.bitscore) rows ∧
  labelMedPident rows = (topPidentRow rows).scomname ∧
  labelMedBitscore rows = (topBitscoreRow rows).scomname

instance (rows : List Hit) (p : SuggestParams) : Decidable (codeConds rows p) := by
  unfold codeConds; infer_instance

/-- The `try` body of `suggest_genotype`: on the empty table the very first
step (`idxmax` of an empty series) raises, modelled as `Except.error`. -/
def suggestCore (rows : List Hit) (p : SuggestParams) : Except String String :=
  match rows with
  | [] => Except.error "attempt to get argmax of an empty sequence"
  | _ :: _ =>
      if codeConds rows p then Except.ok (topPidentRow rows).scomname
      else Except.ok manualSentinel

/-- Model of `suggest_genotype(df, ...)`: the `try/except` downgrades any failure of
the body to the manual-review sentinel. -/
def suggest_genotype (rows : List Hit) (p : SuggestParams) : String :=
  match suggestCore rows p with
  | Except.ok s => s
  | Except.error _ => manualSentinel

/-- Per-row coverage as decoded by the `qseqid` splits of `main` (lines
70–73): `none` models the `NaN` a row gets when either split does not yield
its second part or `to_numeric` coerces to `NaN`. -/
def coverageOf (r : Hit) : Option ℚ :=
  match pySplit r.qseqid "_length_" with
  | [_, t] =>
      match pySplit t "_cov_" with
      | [_, c] => parseDecimal c
      | _ => none
  | _ => none

/-- Model of `df["coverage"] > 50` on a possibly-`NaN` coverage (`NaN > 50` is false). -/
def passesCoverage (r : Hit) : Bool :=
  match coverageOf r with
  | some c => 50 < c
  | none => false

/-- Lines 74–75 of `main`: `df.loc[df["qlen"] > 200]` then
`df.loc[df["coverage"] > 50]`. -/
def filteredRows (rows : List Hit) : List Hit :=
  (rows.filter (fun r => 200 < r.qlen)).filter passesCoverage

/-- Lines 78–86 of `main`: the genotype string written for the sample —
the no-valid-contig sentinel when the filtered table is empty or has no
distinct label, the suggestion otherwise.  (`nunique` counts distinct
non-null labels; labels are strings here, so it is 0 exactly on the empty
table.) -/
def classifyGenotype (rows : List Hit) (p : SuggestParams) : String :=
  let f := filteredRows rows
  if f.isEmpty ∨ (f.map (·.scomname)).dedup.length = 0 then noContigSentinel
  else suggest_genotype f p

/-- Number of parts `qseqid.split("_length_")` yields for one row. -/
def parts1 (r : Hit) : ℕ := (pySplit r.qseqid "_length_").length

/-- The non-null `temp1` column: second part of the first split, for the rows
that have one. -/
def temp1s (rows : List Hit) : List String :=
  rows.filterMap (fun r =>
    match pySplit r.qseqid "_length_" with
    | [_, t] => some t
    | _ => none)

/-- Success of the two `expand=True` split-assignments of `main` (lines
70–71): each produces exactly two columns iff the maximal number of parts
over the column is 2; any other width makes the two-name assignment raise
`ValueError`.  (On the empty table both expansions yield zero columns and
the assignment raises as well.) -/
def decodeOk (rows : List Hit) : Bool :=
  ((rows.map parts1).foldl Nat.max 0 == 2) &&
  (((temp1s rows).map fun t => (pySplit t "_cov_").length).foldl Nat.max 0 == 2)

/-- One row of the output CSV (`Ticket`, `Sample`, `Genotype`). -/
abbrev OutRow := String × String × String

/-- The header row `to_csv` writes when the output file is new. -/
def csvHeaderRow : OutRow := ("Ticket", "Sample", "Genotype")

/-- Observable outcome of one run of the classification command: a non-zero
exit with the output file untouched, or the new full content of the output
file. -/
inductive MainResult where
  | fatal : MainResult
  | wrote : List OutRow → MainResult
  deriving DecidableEq, Repr

/-- Model of `main()` of `genotype_prediction.py` over an explicit file-system state:
`blastRows` is the parsed BLAST table (`none` when the file does not exist),
`prevOut` the pre-existing output file content (`none` when absent).
A missing input exits via `sys.exit(1)`; a failing split-assignment raises
out of the process; both leave the output untouched.  Otherwise exactly one
row is appended, after the header if the output file is new. -/
def mainRun (blastRows : Option (List Hit)) (prevOut : Option (List OutRow))
    (ticket sample : String) (p : SuggestParams) : MainResult :=
  match blastRows with
  | none => MainResult.fatal
  | some rows =>
      if decodeOk rows then
        MainResult.wrote
          ((match prevOut with
            | none => [csvHeaderRow]
            | some prev => prev) ++ [(ticket, sample, classifyGenotype rows p)])
      else MainResult.fatal

/-! ## `blast_summary.py` -/

/-- One raw row of the header-less BLAST file `summarize_blast` reads,
cells still text as in the CSV. -/
structure SumRow where
  qseqid : String
  sseqid : String
  evalue : String
  bitscore : String
  pident : String
  qlen : String
  qstart : String
  qend : String
  sstart : String
  send : String
  taxid : String
  scomname : String
  alnLength : String
  deriving DecidableEq, Repr

/-- Do all ten numeric columns of a row coerce (`pd.to_numeric` composed with
the CSV cell text)?  Rows failing any coercion are dropped by the
`dropna(subset=numeric_columns)`. -/
def numericOk (r : SumRow) : Bool :=
  (parseDecimal r.evalue).isSome && (parseDecimal r.bitscore).isSome &&
  (parseDecimal r.pident).isSome && (parseDecimal r.qlen).isSome &&
  (parseDecimal r.qstart).isSome && (parseDecimal r.qend).isSome &&
  (parseDecimal r.sstart).isSome && (parseDecimal r.send).isSome &&
  (parseDecimal r.taxid).isSome && (parseDecimal r.alnLength).isSome

/-- The rows surviving numeric validation. -/
def validRows (rows : List SumRow) : List SumRow := rows.filter numericOk

/-- The `groupby` key `(qseqid, taxid, scomname)` of a (valid) row, `taxid`
as its coerced numeric value. -/
def sumKey (r : SumRow) : String × ℚ × String :=
  (r.qseqid, (parseDecimal r.taxid).getD 0, r.scomname)

/-- One output row of the summary CSV. -/
structure AggRow where
  qseqid : String
  taxid : ℚ
  scomname : String
  count : ℕ
  min_pident : ℚ
  max_pident : ℚ
  median_pident : ℚ
  min_length : ℚ
  max_length : ℚ
  median_length : ℚ
  min_bitscore : ℚ
  max_bitscore : ℚ
  median_bitscore : ℚ
  deriving DecidableEq, Repr

/-- Model of `df[col].min()` over a group (0 for the never-consulted empty case). -/
def listMinD : List ℚ → ℚ
  | [] => 0
  | x :: xs => xs.foldl min x

/-- Model of `df[col].max()` over a group (0 for the never-consulted empty case). -/
def listMaxD : List ℚ → ℚ
  | [] => 0
  | x :: xs => xs.foldl max x

/-- Model of `summarize_blast`: numeric coercion, `dropna`, then one aggregate row per
distinct `(qseqid, taxid, scomname)` key with count and order statistics.
(pandas lists the groups in sorted key order; the distinct keys are produced
here in first-occurrence order, which no claim distinguishes.) -/
def summarize_blast (rows : List SumRow) : List AggRow :=
  let valid := validRows rows
  let keys := (valid.map sumKey).dedup
  keys.map (fun k =>
    let g := valid.filter (fun r => sumKey r = k)
    let pids := g.map (fun r => (parseDecimal r.pident).getD 0)
    let lens := g.map (fun r => (parseDecimal r.alnLength).getD 0)
    let bits := g.map (fun r => (parseDecimal r.bitscore).getD 0)
    { qseqid := k.1, taxid := k.2.1, scomname := k.2.2,
      count := g.length,
      min_pident := listMinD pids, max_pident := listMaxD pids,
      median_pident := median pids,
      min_length := listMinD lens, max_length := listMaxD lens,
      median_length := median lens,
      min_bitscore := listMinD bits, max_bitscore := listMaxD bits,
      median_bitscore := median bits })

/-- The key fields of an aggregate row. -/
def aggKey (a : AggRow) : String × ℚ × String := (a.qseqid, a.taxid, a.scomname)

/-! ## Basic lemmas -/

lemma complChar_eq_self (c : Char) (h1 : c ≠ 'A') (h2 : c ≠ 'C') (h3 : c ≠ 'G')
    (h4 : c ≠ 'T') (h5 : c ≠ 'a') (h6 : c ≠ 'c') (h7 : c ≠ 'g') (h8 : c ≠ 't')
    (h9 : c ≠ 'N') (h10 : c ≠ 'n') : complChar c = c := by
  simp [complChar, h1, h2, h3, h4, h5, h6, h7, h8, h9, h10]

lemma complChar_involutive (c : Char) : complChar (complChar c) = c := by
  by_cases h1 : c = 'A'; · subst h1; decide
  by_cases h2 : c = 'C'; · subst h2; decide
  by_cases h3 : c = 'G'; · subst h3; decide
  by_cases h4 : c = 'T'; · subst h4; decide
  by_cases h5 : c = 'a'; · subst h5; decide
  by_cases h6 : c = 'c'; · subst h6; decide
  by_cases h7 : c = 'g'; · subst h7; decide
  by_cases h8 : c = 't'; · subst h8; decide
  by_cases h9 : c = 'N'; · subst h9; decide
  by_cases h10 : c = 'n'; · subst h10; decide
  have hs : complChar c = c :=
    complChar_eq_self c h1 h2 h3 h4 h5 h6 h7 h8 h9 h10
  rw [hs, hs]

lemma rowIsReverse_iff (r : RawHit) :
    rowIsReverse r = true ↔
      ∃ a b : ℤ, parseIntPy r.sstart = some a ∧ parseIntPy r.send = some b ∧
        b < a := by
  unfold rowIsReverse
  cases h1 : parseIntPy r.sstart <;> cases h2 : parseIntPy r.send <;>
    simp [h1, h2]

lemma mem_get_reverse_aux (rows : List RawHit) :
    ∀ (s : Finset String) (q : String),
      q ∈ rows.foldl
        (fun s r => if rowIsReverse r then insert r.qseqid s else s) s ↔
      q ∈ s ∨ ∃ r ∈ rows, r.qseqid = q ∧ rowIsReverse r = true := by
  induction rows with
  | nil => intro s q; simp
  | cons r rs ih =>
      intro s q
      simp only [List.foldl_cons, ih, List.mem_cons]
      by_cases hr : rowIsReverse r = true
      · simp only [hr, if_pos]
        constructor
        · rintro (hq | hrest)
          · rcases Finset.mem_insert.mp hq with hq | hq
            · exact Or.inr ⟨r, Or.inl rfl, hq.symm, hr⟩
            · exact Or.inl hq
          · rcases hrest with ⟨x, hx, hxq, hxr⟩
            exact Or.inr ⟨x, Or.inr hx, hxq, hxr⟩
        · rintro (hq | ⟨x, hx | hx, hxq, hxr⟩)
          · exact Or.inl (Finset.mem_insert_of_mem hq)
          · subst hx; exact Or.inl (Finset.mem_insert.mpr (Or.inl hxq.symm))
          · exact Or.inr ⟨x, hx, hxq, hxr⟩
      · simp only [hr, if_neg, Bool.false_eq_true, not_false_iff]
        constructor
        · rintro (hq | ⟨x, hx, hxq, hxr⟩)
          · exact Or.inl hq
          · exact Or.inr ⟨x, Or.inr hx, hxq, hxr⟩
        · rintro (hq | ⟨x, hx | hx, hxq, hxr⟩)
          · exact Or.inl hq
          · subst hx; exact absurd hxr hr
          · exact Or.inr ⟨x, hx, hxq, hxr⟩

/-! ## Claim theorems: orientation normalizer -/

/-- C4. `get_reverse_contigs` returns a subset of the query ids of the hit
table, and a query id is in the set iff one of its rows has integer-parsable
`sstart` and `send` with `sstart > send`; rows whose coordinates fail to
parse never contribute. -/
theorem c4_reverse_ids (rows : List RawHit) (q : String) :
    (q ∈ get_reverse_contigs rows → q ∈ rows.map RawHit.qseqid) ∧
    (q ∈ get_reverse_contigs rows ↔
      ∃ r ∈ rows, r.qseqid = q ∧
        ∃ a b : ℤ, parseIntPy r.sstart = some a ∧ parseIntPy r.send = some b ∧
          b < a) := by
  have hmem : q ∈ get_reverse_contigs rows ↔
      ∃ r ∈ rows, r.qseqid = q ∧ rowIsReverse r = true := by
    unfold get_reverse_contigs
    rw [mem_get_reverse_aux]
    simp
  constructor
  · intro hq
    rcases hmem.mp hq with ⟨r, hr, hrq, _⟩
    exact hrq ▸ List.mem_map_of_mem RawHit.qseqid hr
  · rw [hmem]
    constructor
    · rintro ⟨r, hr, hrq, hrev⟩
      exact ⟨r, hr, hrq, (rowIsReverse_iff r).mp hrev⟩
    · rintro ⟨r, hr, hrq, hab⟩
      exact ⟨r, hr, hrq, (rowIsReverse_iff r).mpr hab⟩

/-- Witness for C4 at a concrete table: the single row `sstart=100, send=50`
puts its query id in the set, hence in the table's ids. -/
theorem c4_reverse_ids_witness :
    "q1" ∈ [RawHit.mk "q1" "100" "50"].map RawHit.qseqid :=
  (c4_reverse_ids [RawHit.mk "q1" "100" "50"] "q1").1 (by decide)

/-- C7. `reverse_complement` is an involution on strings over
`A/C/G/T/N` in either case. -/
theorem c7_reverse_complement_involution (s : String)
    (h : ∀ c ∈ s.toList, c ∈ ['A', 'C', 'G', 'T', 'N', 'a', 'c', 'g', 't', 'n']) :
    reverse_complement (reverse_complement s) = s := by
  unfold reverse_complement
  have hcomp : (fun c => complChar (complChar c)) = id := by
    funext c; exact complChar_involutive c
  calc String.mk ((((String.mk ((s.toList.map complChar).reverse)).toList.map
          complChar).reverse))
      = String.mk ((((s.toList.map complChar).reverse).map complChar).reverse) :=
        rfl
    _ = String.mk ((((s.toList.map complChar).map complChar).reverse).reverse) := by
        rw [List.map_reverse]
    _ = String.mk ((s.toList.map complChar).map complChar) := by
        rw [List.reverse_reverse]
    _ = String.mk (s.toList.map (fun c => complChar (complChar c))) := by
        rw [List.map_map]; rfl
    _ = String.mk s.toList := by rw [hcomp, List.map_id]
    _ = s := rfl

/-- Witness for C7 on the alphabet itself. -/
theorem c7_reverse_complement_involution_witness :
    reverse_complement (reverse_complement "ACGTNacgtn") = "ACGTNacgtn" :=
  c7_reverse_complement_involution "ACGTNacgtn" (by decide)

/-! ## Claim theorems: genotype suggestion classifier -/

/-- The six conditions of claim C1 as the spec words them: every comparison is
against the label of the row with the global maximum percent identity
(the source's sixth conjunct instead compares the median-bit-score label with
`max_bitscore`'s label; the two agree under the first conjunct). -/
def claimConds (rows : List Hit) (p : SuggestParams) : Prop :=
  (topPidentRow rows).scomname = (topBitscoreRow rows).scomname ∧
  p.minRows ≤ (topCount rows : ℤ) ∧
  p.minIdentity ≤ maxValD (·.pident) rows ∧
  p.minBitscore ≤ maxValD (·.bitscore) rows ∧
  labelMedPident rows = (topPidentRow rows).scomname ∧
  labelMedBitscore rows = (topPidentRow rows).scomname

instance (rows : List Hit) (p : SuggestParams) : Decidable (claimConds rows p) := by
  unfold claimConds; infer_instance

lemma claimConds_iff_codeConds (rows : List Hit) (p : SuggestParams) :
    claimConds rows p ↔ codeConds rows p := by
  unfold claimConds codeConds
  constructor
  · rintro ⟨h1, h2, h3, h4, h5, h6⟩
    exact ⟨h1, h2, h3, h4, h5, h6.trans h1⟩
  · rintro ⟨h1, h2, h3, h4, h5, h6⟩
    exact ⟨h1, h2, h3, h4, h5, h6.trans h1.symm⟩

/-- C1. On a nonempty quality-filtered table, `suggest_genotype` returns
the label of the maximum-identity row iff all six claim conditions hold, and
the manual-review sentinel in every other case. -/
theorem c1_suggest_criteria (rows : List Hit) (p : SuggestParams)
    (h : rows ≠ []) :
    (claimConds rows p →
      suggest_genotype rows p = (topPidentRow rows).scomname) ∧
    (¬ claimConds rows p → suggest_genotype rows p = manualSentinel) := by
  cases rows with
  | nil => exact absurd rfl h
  | cons r rs =>
      constructor
      · intro hc
        have hcode := (claimConds_iff_codeConds _ p).mp hc
        simp only [suggest_genotype, suggestCore, if_pos hcode]
      · intro hc
        have hcode := fun hco => hc ((claimConds_iff_codeConds _ p).mpr hco)
        simp only [suggest_genotype, suggestCore, if_neg hcode]

/-- Witness for C1: a single-row table on which all six conditions hold and
the label is emitted. -/
theorem c1_suggest_criteria_witness :
    claimConds [Hit.mk "q" 300 95 450 "HAV"] (SuggestParams.mk 1 90 400) ∧
    suggest_genotype [Hit.mk "q" 300 95 450 "HAV"] (SuggestParams.mk 1 90 400)
      = "HAV" :=
  ⟨by decide,
    ((c1_suggest_criteria [Hit.mk "q" 300 95 450 "HAV"]
      (SuggestParams.mk 1 90 400) (by decide)).1 (by decide)).trans (by decide)⟩

/-- C2 counterexample. A table whose single hit fails the length filter:
the classification engine yields the no-valid-contig sentinel, which is not
the manual-review ("inconclusive") sentinel the claim names. -/
theorem c2_counterexample :
    filteredRows [Hit.mk "c1_length_100_cov_80" 100 99 500 "HAV"] = [] ∧
    classifyGenotype [Hit.mk "c1_length_100_cov_80" 100 99 500 "HAV"]
      (SuggestParams.mk 20 90 400) = noContigSentinel ∧
    noContigSentinel ≠ manualSentinel := by
  refine ⟨by decide, by decide, by decide⟩

/-- C2 (amended). Whenever the quality filter leaves no rows, the
classification engine still produces a genotype sentinel — the
no-valid-contig sentinel (`"Ingen giltig contig (för kort/låg täckning)"`),
a distinct string from the manual-review sentinel. -/
theorem c2_empty_filter_sentinel (rows : List Hit) (p : SuggestParams)
    (h : filteredRows rows = []) :
    classifyGenotype rows p = noContigSentinel := by
  unfold classifyGenotype
  rw [h]
  simp

/-- Witness for the amended C2 at the concrete all-too-short table. -/
theorem c2_empty_filter_sentinel_witness :
    classifyGenotype [Hit.mk "c1_length_100_cov_80" 100 99 500 "HAV"]
      (SuggestParams.mk 20 90 400) = noContigSentinel :=
  c2_empty_filter_sentinel _ _ (by decide)

lemma foldl_argmax_step_mem (f : Hit → ℚ) :
    ∀ (rs : List Hit) (a : Hit),
      ∃ c, rs.foldl (fun acc r =>
          match acc with
          | none => some r
          | some b => if f r > f b then some r else acc) (some a) = some c ∧
        (c = a ∨ c ∈ rs) := by
  intro rs
  induction rs with
  | nil => exact fun a => ⟨a, rfl, Or.inl rfl⟩
  | cons x xs ih =>
      intro a
      simp only [List.foldl_cons]
      by_cases hx : f x > f a
      · rcases ih x with ⟨c, hc, hmem⟩
        refine ⟨c, by simpa [hx] using hc, ?_⟩
        rcases hmem with h | h
        · exact Or.inr (by rw [h]; exact List.mem_cons_self x xs)
        · exact Or.inr (List.mem_cons_of_mem x h)
      · rcases ih a with ⟨c, hc, hmem⟩
        refine ⟨c, by simpa [hx] using hc, ?_⟩
        rcases hmem with h | h
        · exact Or.inl h
        · exact Or.inr (List.mem_cons_of_mem x h)

lemma topPidentRow_mem (rows : List Hit) (h : rows ≠ []) :
    topPidentRow rows ∈ rows := by
  cases rows with
  | nil => exact absurd rfl h
  | cons r rs =>
      rcases foldl_argmax_step_mem (·.pident) rs r with ⟨c, hc, hmem⟩
      have : topPidentRow (r :: rs) = c := by
        unfold topPidentRow argmaxByD argmaxBy
        rw [List.foldl_cons]
        exact congrArg (Option.getD · default) hc
      rw [this]
      rcases hmem with h | h
      · rw [h]; exact List.mem_cons_self r rs
      · exact List.mem_cons_of_mem r h

/-- C3. The suggestion procedure is total: the failure its body hits on
degenerate input (here: the `idxmax` of the empty table) is caught and turned
into the manual-review sentinel, and on every input the caller receives
either that sentinel or the genotype label of some row — never a propagated
exception. -/
theorem c3_suggest_never_raises (rows : List Hit) (p : SuggestParams) :
    (rows = [] → (∃ e, suggestCore rows p = Except.error e) ∧
      suggest_genotype rows p = manualSentinel) ∧
    (suggest_genotype rows p = manualSentinel ∨
      ∃ r ∈ rows, suggest_genotype rows p = r.scomname) := by
  cases rows with
  | nil =>
      exact ⟨fun _ => ⟨⟨"attempt to get argmax of an empty sequence", rfl⟩, rfl⟩,
        Or.inl rfl⟩
  | cons r rs =>
      refine ⟨(fun heq => absurd heq (List.cons_ne_nil r rs)), ?_⟩
      by_cases hc : codeConds (r :: rs) p
      · refine Or.inr ⟨topPidentRow (r :: rs),
          topPidentRow_mem _ (List.cons_ne_nil r rs), ?_⟩
        simp only [suggest_genotype, suggestCore, if_pos hc]
      · refine Or.inl ?_
        simp only [suggest_genotype, suggestCore, if_neg hc]

/-- Witness for C3: the empty table, whose internal failure is downgraded to
the sentinel. -/
theorem c3_suggest_never_raises_witness :
    suggest_genotype [] (SuggestParams.mk 20 90 400) = manualSentinel :=
  ((c3_suggest_never_raises [] (SuggestParams.mk 20 90 400)).1 rfl).2

/-- C8 counterexample. The BLAST input file exists but its single
`qseqid` lacks the `_length_` delimiter: the split-assignment raises
(`ValueError`), the process dies with a non-zero status, and no output row is
written — against the claim's "otherwise it always writes exactly one output
row". -/
theorem c8_counterexample :
    mainRun (some [Hit.mk "abc" 300 99 500 "HAV"]) (some [])
      "T1" "S1" (SuggestParams.mk 20 90 400) = MainResult.fatal := by
  decide

/-- C8 (amended). A missing input file means a non-zero exit with the
output untouched; an existing input whose query-id decode fails also aborts
with nothing written; an existing input whose decode succeeds appends exactly
one `(ticket, sample, genotype)` row, preceded by the CSV header exactly when
the output file did not previously exist. -/
theorem c8_exit_and_append (blast : Option (List Hit))
    (prevOut : Option (List OutRow)) (ticket sample : String)
    (p : SuggestParams) :
    (blast = none →
      mainRun blast prevOut ticket sample p = MainResult.fatal) ∧
    (∀ rows, blast = some rows → decodeOk rows = false →
      mainRun blast prevOut ticket sample p = MainResult.fatal) ∧
    (∀ rows prev, blast = some rows → decodeOk rows = true →
      prevOut = some prev →
      mainRun blast prevOut ticket sample p =
        MainResult.wrote (prev ++ [(ticket, sample, classifyGenotype rows p)])) ∧
    (∀ rows, blast = some rows → decodeOk rows = true → prevOut = none →
      mainRun blast prevOut ticket sample p =
        MainResult.wrote ([csvHeaderRow] ++
          [(ticket, sample, classifyGenotype rows p)])) := by
  refine ⟨?_, ?_, ?_, ?_⟩
  · rintro rfl; rfl
  · rintro rows rfl hdec
    simp [mainRun, hdec]
  · rintro rows prev rfl hdec rfl
    simp [mainRun, hdec]
  · rintro rows rfl hdec rfl
    simp [mainRun, hdec, csvHeaderRow]

/-- Witness for the amended C8: a missing input is fatal, and a decodable
one-row input appended to a fresh output file yields header plus one row. -/
theorem c8_exit_and_append_witness :
    mainRun none (some []) "T1" "S1" (SuggestParams.mk 1 90 400)
        = MainResult.fatal ∧
    mainRun (some [Hit.mk "c1_length_500_cov_80" 500 99 500 "HAV"]) none
        "T1" "S1" (SuggestParams.mk 1 90 400) =
      MainResult.wrote [csvHeaderRow, ("T1", "S1", "HAV")] :=
  ⟨(c8_exit_and_append none (some []) "T1" "S1"
      (SuggestParams.mk 1 90 400)).1 rfl,
    ((c8_exit_and_append (some [Hit.mk "c1_length_500_cov_80" 500 99 500 "HAV"])
        none "T1" "S1" (SuggestParams.mk 1 90 400)).2.2.2
      [Hit.mk "c1_length_500_cov_80" 500 99 500 "HAV"] rfl (by decide)
      rfl).trans (by decide)⟩

/-! ## Lemmas on the FASTA stream -/

lemma chunksGo_content : ∀ (cs acc : List Char) (k : ℕ),
    ((chunksGo acc k cs).map String.toList).flatten = acc.reverse ++ cs := by
  intro cs
  induction cs with
  | nil =>
      intro acc k
      cases acc with
      | nil => rfl
      | cons a as => simp [chunksGo]
  | cons c rest ih =>
      intro acc k
      by_cases h80 : k + 1 = 80
      · simp only [chunksGo, h80, beq_self_eq_true, if_pos]
        simp [ih [] 0, List.reverse_cons, List.append_assoc]
      · have hb : (k + 1 == 80) = false := by
          exact beq_false_of_ne h80
        simp only [chunksGo, hb, Bool.false_eq_true, if_neg, not_false_iff]
        rw [ih (c :: acc) (k + 1)]
        simp [List.reverse_cons, List.append_assoc]

lemma chunks80_content (cs : List Char) :
    ((chunks80 cs).map String.toList).flatten = cs := by
  simpa using chunksGo_content cs [] 0

lemma processLines_eq_records (revSet : Finset String) :
    ∀ (lines : List String) (header : Option String) (seqAcc : List String),
      processLines revSet lines header seqAcc =
        (recordsAux lines header seqAcc).flatMap
          (fun rec => write_record revSet (some rec.1) rec.2) := by
  intro lines
  induction lines with
  | nil =>
      intro header seqAcc
      cases header with
      | none => rfl
      | some h => simp [processLines, recordsAux, write_record]
  | cons line rest ih =>
      intro header seqAcc
      by_cases hgt : startsWithGT line
      · simp only [processLines, recordsAux, hgt, if_pos, List.flatMap_append]
        rw [ih (some line) []]
        cases header with
        | none => simp [write_record]
        | some h => simp [write_record]
      · by_cases hne : line = ""
        · simp only [processLines, recordsAux, hgt, hne, Bool.false_eq_true,
            if_neg, not_false_iff, ne_eq, not_true_eq_false, if_false]
          exact ih header seqAcc
        · simp only [processLines, recordsAux, hgt, hne, Bool.false_eq_true,
            if_neg, not_false_iff, ne_eq, if_true]
          exact ih header (seqAcc ++ [pyStrip line])

lemma chunksGo_dropLast_length : ∀ (cs acc : List Char) (k : ℕ),
    k = acc.length → k < 80 →
    ∀ s ∈ (chunksGo acc k cs).dropLast, s.length = 80 := by
  intro cs
  induction cs with
  | nil =>
      intro acc k _ _ s hs
      cases acc with
      | nil => simp [chunksGo] at hs
      | cons a as => simp [chunksGo] at hs
  | cons c rest ih =>
      intro acc k hk hlt s hs
      by_cases h80 : k + 1 = 80
      · simp only [chunksGo, h80, beq_self_eq_true, if_pos] at hs
        cases hrec : chunksGo [] 0 rest with
        | nil => rw [hrec] at hs; simp at hs
        | cons x xs =>
            rw [hrec] at hs
            have hs' : s = String.mk (c :: acc).reverse ∨
                s ∈ (x :: xs).dropLast := by
              simpa using hs
            rcases hs' with rfl | hmem
            · show ((c :: acc).reverse).length = 80
              simp [← hk, h80]
            · exact ih [] 0 rfl (by omega) s (by rw [hrec]; exact hmem)
      · have hb : (k + 1 == 80) = false := beq_false_of_ne h80
        simp only [chunksGo, hb, Bool.false_eq_true, if_neg, not_false_iff] at hs
        exact ih (c :: acc) (k + 1) (by simp [hk]) (by omega) s hs

lemma startsWithGT_ne_empty {h : String} (hh : startsWithGT h = true) :
    h ≠ "" := by
  intro he
  rw [he] at hh
  exact absurd hh (by decide)

lemma splitWsGo_token : ∀ (tok acc rest : List Char),
    (∀ c ∈ tok, ¬ c.isWhitespace) → acc ≠ [] →
    splitWsGo acc (tok ++ ' ' :: rest) = (acc.reverse ++ tok) :: splitWs rest := by
  intro tok
  induction tok with
  | nil =>
      intro acc rest _ hacc
      cases acc with
      | nil => exact absurd rfl hacc
      | cons a as => simp [splitWsGo, splitWs]
  | cons c tok ih =>
      intro acc rest htok hacc
      have hc : ¬ c.isWhitespace := htok c (List.mem_cons_self c tok)
      simp only [List.cons_append, splitWsGo, hc, Bool.false_eq_true, if_neg,
        not_false_iff]
      rw [List.append_eq,
        ih (c :: acc) rest (fun d hd => htok d (List.mem_cons_of_mem c hd))
          (List.cons_ne_nil c acc)]
      simp

/-! ## Claim theorems: FASTA rewriting -/

/-- C5. A record whose identifier is in the reverse set is written with
every base complemented (A↔T, C↔G, case preserved, N/n fixed, anything else
unchanged) and the result reversed, under a header extending the identifier
with `_reverse_complement`; a record not in the set keeps its header and its
sequence content.  The spec's concrete scenario is checked end to end. -/
theorem c5_record_rewrite (revSet : Finset String) (h : String)
    (sls : List String) (hh : startsWithGT h = true) :
    (complChar 'A' = 'T' ∧ complChar 'T' = 'A' ∧ complChar 'C' = 'G' ∧
      complChar 'G' = 'C' ∧ complChar 'a' = 't' ∧ complChar 't' = 'a' ∧
      complChar 'c' = 'g' ∧ complChar 'g' = 'c' ∧ complChar 'N' = 'N' ∧
      complChar 'n' = 'n' ∧
      ∀ c, c ∉ ['A', 'C', 'G', 'T', 'a', 'c', 'g', 't', 'N', 'n'] →
        complChar c = c) ∧
    (∀ s : String,
      (reverse_complement s).toList = (s.toList.map complChar).reverse) ∧
    (fasta_id h ∈ revSet →
      write_record revSet (some h) sls =
        (">" ++ fasta_id h ++ "_reverse_complement") ::
          chunks80 (reverse_complement (String.join sls)).toList ∧
      ((write_record revSet (some h) sls).tail.map String.toList).flatten =
        (reverse_complement (String.join sls)).toList) ∧
    (fasta_id h ∉ revSet →
      write_record revSet (some h) sls = h :: chunks80 (String.join sls).toList ∧
      ((write_record revSet (some h) sls).tail.map String.toList).flatten =
        (String.join sls).toList) ∧
    process_fasta [">ctg1_length_500_cov_80", "ACGTN"]
        {"ctg1_length_500_cov_80"} =
      [">ctg1_length_500_cov_80_reverse_complement", "NACGT"] := by
  have hne : h ≠ "" := startsWithGT_ne_empty hh
  refine ⟨?_, fun s => rfl, ?_, ?_, by decide⟩
  · refine ⟨rfl, rfl, rfl, rfl, rfl, rfl, rfl, rfl, rfl, rfl, ?_⟩
    intro c hc
    simp only [List.mem_cons, List.not_mem_nil, or_false, not_or] at hc
    obtain ⟨h1, h2, h3, h4, h5, h6, h7, h8, h9, h10⟩ := hc
    exact complChar_eq_self c h1 h2 h3 h4 h5 h6 h7 h8 h9 h10
  · intro hmem
    have heq : write_record revSet (some h) sls =
        (">" ++ fasta_id h ++ "_reverse_complement") ::
          chunks80 (reverse_complement (String.join sls)).toList := by
      simp [write_record, hne, hmem]
    exact ⟨heq, by rw [heq]; simpa using chunks80_content _⟩
  · intro hmem
    have heq : write_record revSet (some h) sls =
        h :: chunks80 (String.join sls).toList := by
      simp [write_record, hne, hmem]
    exact ⟨heq, by rw [heq]; simpa using chunks80_content _⟩

/-- Witness for C5: the spec's scenario record, extracted through the
theorem. -/
theorem c5_record_rewrite_witness :
    process_fasta [">ctg1_length_500_cov_80", "ACGTN"]
        {"ctg1_length_500_cov_80"} =
      [">ctg1_length_500_cov_80_reverse_complement", "NACGT"] :=
  (c5_record_rewrite {"ctg1_length_500_cov_80"} ">ctg1_length_500_cov_80"
    ["ACGTN"] (by decide)).2.2.2.2

/-- C6. The output of `process_fasta` is the concatenation, in input
record order, of the per-record outputs — the trailing record included — and
within one record every sequence line but possibly the last is exactly 80
characters (each record's output being its new header followed by the
80-column chunks of its sequence). -/
theorem c6_rewrap_and_order (lines : List String) (revSet : Finset String) :
    process_fasta lines revSet =
      (recordsOf lines).flatMap
        (fun rec => write_record revSet (some rec.1) rec.2) ∧
    (∀ cs : List Char, ∀ s ∈ (chunks80 cs).dropLast, s.length = 80) ∧
    (∀ h sls, h ≠ "" →
      write_record revSet (some h) sls =
        (if fasta_id h ∈ revSet then ">" ++ fasta_id h ++ "_reverse_complement"
         else h) ::
          chunks80 (if fasta_id h ∈ revSet
            then (reverse_complement (String.join sls)).toList
            else (String.join sls).toList)) := by
  refine ⟨processLines_eq_records revSet lines none [], ?_, ?_⟩
  · intro cs s hs
    exact chunksGo_dropLast_length cs [] 0 rfl (by omega) s hs
  · intro h sls hne
    by_cases hmem : fasta_id h ∈ revSet
    · simp [write_record, hne, hmem]
    · simp [write_record, hne, hmem]

/-- Witness for C6: the record decomposition at a concrete two-record input
(the trailing record flushed), and one record block evaluated concretely. -/
theorem c6_rewrap_and_order_witness :
    process_fasta [">a", "ACGT", "", ">b"] {"b"} =
      (recordsOf [">a", "ACGT", "", ">b"]).flatMap
        (fun rec => write_record {"b"} (some rec.1) rec.2) ∧
    write_record {"b"} (some ">a") ["ACGT"] = ">a" :: chunks80 "ACGT".toList :=
  ⟨(c6_rewrap_and_order [">a", "ACGT", "", ">b"] {"b"}).1,
    ((c6_rewrap_and_order [] {"b"}).2.2 ">a" ["ACGT"] (by decide)).trans
      (by decide)⟩

/-- C10. When a header carries a free-text description after the
identifier and the identifier is in the reverse set, the rewritten header is
exactly `>` + identifier + `_reverse_complement` — the description is
dropped; a record outside the set keeps its full header verbatim. -/
theorem c10_description_dropped (revSet : Finset String) (id desc : String)
    (sls : List String) (hid : ∀ c ∈ id.toList, ¬ c.isWhitespace) :
    fasta_id (">" ++ id ++ " " ++ desc) = id ∧
    (id ∈ revSet →
      write_record revSet (some (">" ++ id ++ " " ++ desc)) sls =
        (">" ++ id ++ "_reverse_complement") ::
          chunks80 (reverse_complement (String.join sls)).toList) ∧
    (id ∉ revSet →
      (write_record revSet (some (">" ++ id ++ " " ++ desc)) sls).headD "" =
        ">" ++ id ++ " " ++ desc) := by
  have hdata : (">" ++ id ++ " " ++ desc).toList =
      '>' :: (id.toList ++ ' ' :: desc.toList) := by
    simp
  have hfid : fasta_id (">" ++ id ++ " " ++ desc) = id := by
    unfold fasta_id splitWs
    rw [hdata]
    have hgt : ¬ ('>'.isWhitespace) := by decide
    simp only [splitWsGo, hgt, Bool.false_eq_true, if_neg, not_false_iff]
    rw [splitWsGo_token id.toList ['>'] desc.toList hid (List.cons_ne_nil _ _)]
    simp
  have hne : (">" ++ id ++ " " ++ desc) ≠ "" := by
    intro he
    have : (">" ++ id ++ " " ++ desc).toList = [] := by rw [he]; rfl
    rw [hdata] at this
    exact absurd this (List.cons_ne_nil _ _)
  refine ⟨hfid, ?_, ?_⟩
  · intro hmem
    simp [write_record, hne, hfid, hmem]
  · intro hmem
    simp [write_record, hne, hfid, hmem]

/-- Witness for C10: the description `extra info` is dropped from the header
of the reverse-complemented record. -/
theorem c10_description_dropped_witness :
    write_record {"ctg1"} (some (">" ++ "ctg1" ++ " " ++ "extra info"))
        ["AC"] = [">ctg1_reverse_complement", "GT"] :=
  ((c10_description_dropped {"ctg1"} "ctg1" "extra info" ["AC"]
      (by decide)).2.1 (by decide)).trans (by decide)

/-! ## Claim theorems: aggregation engine -/

lemma count_filter_key (valid : List SumRow) (k : String × ℚ × String) :
    ((valid.filter (fun r => sumKey r = k)).length) =
      (valid.map sumKey).countP (fun x => decide (x = k)) := by
  rw [List.countP_map, ← List.countP_eq_length_filter]
  rfl

/-- C9. The summary produced by `summarize_blast` has one row per
distinct `(qseqid, taxid, scomname)` key, each row's count is the number of
numerically valid rows carrying that key, the counts sum to the total number
of rows surviving numeric validation, and no emitted group has count 0. -/
theorem c9_aggregate_counts (rows : List SumRow) :
    ((summarize_blast rows).map aggKey).Nodup ∧
    (∀ a ∈ summarize_blast rows,
      a.count =
        ((validRows rows).filter (fun r => sumKey r = aggKey a)).length) ∧
    ((summarize_blast rows).map AggRow.count).sum = (validRows rows).length ∧
    (∀ a ∈ summarize_blast rows, a.count ≠ 0) := by
  have hkeysmap : (summarize_blast rows).map aggKey =
      ((validRows rows).map sumKey).dedup := by
    unfold summarize_blast
    rw [List.map_map]
    exact List.map_id _
  have hrepr : ∀ a ∈ summarize_blast rows,
      a ∈ summarize_blast rows ∧
      a.count = ((validRows rows).filter
        (fun r => sumKey r = aggKey a)).length := by
    intro a ha
    refine ⟨ha, ?_⟩
    unfold summarize_blast at ha
    rcases List.mem_map.mp ha with ⟨k, _, rfl⟩
    rfl
  refine ⟨?_, ?_, ?_, ?_⟩
  · rw [hkeysmap]; exact List.nodup_dedup _
  · exact fun a ha => (hrepr a ha).2
  · have hcounts : (summarize_blast rows).map AggRow.count =
        ((validRows rows).map sumKey).dedup.map
          (fun k => ((validRows rows).map sumKey).countP
            (fun x => decide (x = k))) := by
      unfold summarize_blast
      rw [List.map_map]
      apply List.map_congr_left
      intro k _
      exact count_filter_key (validRows rows) k
    rw [hcounts]
    have hfin :=
      List.sum_map_count_dedup_eq_length ((validRows rows).map sumKey)
    rw [List.length_map] at hfin
    refine Eq.trans ?_ hfin
    apply congrArg List.sum
    apply List.map_congr_left
    intro k _
    apply List.countP_congr
    intro y _
    simp only [decide_eq_true_eq]
    exact decide_eq_true_iff.symm
  · intro a ha
    have hc := (hrepr a ha).2
    have hk : aggKey a ∈ ((validRows rows).map sumKey).dedup := by
      rw [← hkeysmap]; exact List.mem_map_of_mem aggKey ha
    rcases List.mem_map.mp (List.mem_dedup.mp hk) with ⟨r, hr, hrk⟩
    have hrmem : r ∈ (validRows rows).filter (fun r => sumKey r = aggKey a) :=
      List.mem_filter.mpr ⟨hr, by simp [hrk]⟩
    intro hzero
    rw [hc] at hzero
    rw [List.length_eq_zero] at hzero
    rw [hzero] at hrmem
    exact absurd hrmem (List.not_mem_nil r)

/-- Witness for C9 at a concrete table: one valid duplicate-key pair and one
numerically invalid row; the counts sum to the number of valid rows, and the
single group's count is the size of its key's fiber. -/
theorem c9_aggregate_counts_witness :
    ((summarize_blast [SumRow.mk "q" "s" "1" "400" "99" "300" "1" "2" "3" "4"
        "11" "HAV" "250",
      SumRow.mk "q" "s" "x" "400" "99" "300" "1" "2" "3" "4" "11" "HAV"
        "250"]).map AggRow.count).sum =
      (validRows [SumRow.mk "q" "s" "1" "400" "99" "300" "1" "2" "3" "4"
        "11" "HAV" "250",
      SumRow.mk "q" "s" "x" "400" "99" "300" "1" "2" "3" "4" "11" "HAV"
        "250"]).length :=
  (c9_aggregate_counts _).2.2.1

end EVICT
